import Mathlib

/-!
Verification model of the ArduinoCrashMonitor library
(src/src/ArduinoCrashMonitor.h, src/src/ArduinoCrashMonitor.cpp).

The EEPROM is modelled as a total map from addresses to stored byte
values; every stored value is reduced modulo 256, matching the
`uint8_t` cells written by `eeprom_write_byte`.  The packed structs
`CCrashMonitorHeader` (two bytes: `savedReports` then `uNextReport`)
and `CCrashReport` (`PROGRAM_COUNTER_SIZE` address bytes, here the
parameter `pcs`, followed by a 4-byte little-endian `uint32_t uData`)
are read and written byte for byte exactly as `readBlock`/`writeBlock`
do in the source.  `maxE` stands for the static `_nMaxEntries`, `base`
for `_nBaseAddress`.
-/

def EEPROM : Type := Nat → Nat

/-- One `eeprom_read_byte`: stored cells hold one byte. -/
def readByte (e : EEPROM) (a : Nat) : Nat := e a % 256

/-- One `eeprom_write_byte`: the written value is truncated to a byte. -/
def writeByte (e : EEPROM) (a v : Nat) : EEPROM :=
  fun x => if x = a then v % 256 else e x

/-- `CrashMonitor::readBlock` (ArduinoCrashMonitor.cpp lines 41-46):
reads `n` consecutive bytes starting at `a`. -/
def readBlock (e : EEPROM) (a n : Nat) : List Nat :=
  (List.range n).map (fun i => readByte e (a + i))

/-- `CrashMonitor::writeBlock` (lines 48-53): writes the given bytes at
consecutive addresses starting at `a`. -/
def writeBlock : EEPROM → Nat → List Nat → EEPROM
  | e, _, [] => e
  | e, a, b :: bs => writeBlock (writeByte e a b) (a + 1) bs

/-- The packed header struct (ArduinoCrashMonitor.h lines 34-45):
byte 0 is `savedReports`, byte 1 is `uNextReport`. -/
structure CCrashMonitorHeader where
  savedReports : Nat
  uNextReport : Nat
deriving DecidableEq

/-- The packed report struct (ArduinoCrashMonitor.h lines 50-63):
`pcs` address bytes followed by the 32-bit little-endian user data. -/
structure CCrashReport where
  auAddress : List Nat
  uData : Nat
deriving DecidableEq

/-- The `savedReports` validation of `CrashMonitor::loadHeader`
(lines 59-65): the all-ones sentinel is read as 0, values above
`_nMaxEntries` are clamped to it (the assignment truncates to the
`uint8_t` field, hence the `% 256`). -/
def clampS (maxE x : Nat) : Nat :=
  if x = 255 then 0 else if x > maxE then maxE % 256 else x

/-- `CrashMonitor::loadHeader` (lines 55-70): read the two header bytes
from `base`, then validate `savedReports` and reset an out-of-range
`uNextReport` to 0. -/
def loadHeader (base maxE : Nat) (e : EEPROM) : CCrashMonitorHeader :=
  { savedReports := clampS maxE (readByte e base),
    uNextReport := if readByte e (base + 1) ≥ maxE then 0 else readByte e (base + 1) }

/-- `CrashMonitor::saveHeader` (lines 72-74): write the two header bytes
verbatim at `base`. -/
def saveHeader (base : Nat) (h : CCrashMonitorHeader) (e : EEPROM) : EEPROM :=
  writeBlock e base [h.savedReports, h.uNextReport]

/-- `CrashMonitor::getAddressForReport` (lines 76-82): slot addresses sit
after the 2-byte header; an index `≥ _nMaxEntries` gets no offset. -/
def getAddressForReport (base maxE pcs report : Nat) : Nat :=
  if report < maxE then base + 2 + report * (pcs + 4) else base + 2

/-- Little-endian bytes of a `uint32_t`, as laid out in EEPROM by
`writeBlock` on the packed `CCrashReport` struct (AVR is little-endian). -/
def toLE4 (d : Nat) : List Nat :=
  [d % 256, d / 256 % 256, d / 65536 % 256, d / 16777216 % 256]

/-- Recover a `uint32_t` from its four little-endian bytes. -/
def le4 (l : List Nat) : Nat :=
  l.getD 0 0 + 256 * l.getD 1 0 + 65536 * l.getD 2 0 + 16777216 * l.getD 3 0

/-- The byte image of a `CCrashReport` as `writeBlock` emits it. -/
def serializeReport (r : CCrashReport) : List Nat := r.auAddress ++ toLE4 r.uData

/-- `CrashMonitor::saveCurrentReport` (lines 84-87). -/
def saveCurrentReport (base maxE pcs : Nat) (r : CCrashReport) (slot : Nat) (e : EEPROM) : EEPROM :=
  writeBlock e (getAddressForReport base maxE pcs slot) (serializeReport r)

/-- The in-place endpoint swap of `CrashMonitor::loadReport`
(lines 94-96): `temp = a[0]; a[0] = a[pcs-1]; a[pcs-1] = temp`. -/
def swapEnds (pcs : Nat) (l : List Nat) : List Nat :=
  (l.set 0 (l.getD (pcs - 1) 0)).set (pcs - 1) (l.getD 0 0)

/-- `CrashMonitor::loadReport` (lines 89-97): read the report bytes from
the slot address, then swap the first and last location bytes. -/
def loadReport (base maxE pcs : Nat) (e : EEPROM) (report : Nat) : CCrashReport :=
  let raw := readBlock e (getAddressForReport base maxE pcs report) (pcs + 4)
  { auAddress := swapEnds pcs (raw.take pcs), uData := le4 (raw.drop pcs) }

/-- The `memcpy(&uAddress, report.auAddress, PROGRAM_COUNTER_SIZE)` of
`dump`/`clear`: the location bytes fill the low bytes of a zeroed
`uint32_t`, little-endian. -/
def leBytes (l : List Nat) : Nat := l.foldr (fun b acc => b + 256 * acc) 0

/-- `CrashMonitor::isFull` (lines 164-168). -/
def isFull (base maxE : Nat) (e : EEPROM) : Bool :=
  decide ((loadHeader base maxE e).savedReports ≥ maxE)

/-- `CrashMonitor::watchDogInterruptHandler` (lines 174-190, the part
that touches storage): load and validate the header, store the working
report (location bytes `loc`, user data `uData`) into slot
`uNextReport`, advance the `uint8_t` cursor, increment `savedReports`
only when the advanced cursor did not get reset to 0, and persist the
updated header. -/
def watchDogInterruptHandler (base maxE pcs : Nat) (loc : List Nat) (uData : Nat)
    (e : EEPROM) : EEPROM :=
  let header := loadHeader base maxE e
  let report : CCrashReport := { auAddress := loc, uData := uData }
  let e1 := saveCurrentReport base maxE pcs report header.uNextReport e
  let nx := (header.uNextReport + 1) % 256
  let header2 :=
    if nx ≥ maxE then { savedReports := header.savedReports, uNextReport := 0 }
    else { savedReports := (header.savedReports + 1) % 256, uNextReport := nx }
  saveHeader base header2 e1

/-- One watchdog capture, fed one `(location bytes, user data)` pair. -/
def captureStep (base maxE pcs : Nat) (c : List Nat × Nat) (e : EEPROM) : EEPROM :=
  watchDogInterruptHandler base maxE pcs c.1 c.2 e

/-- A sequence of watchdog captures. -/
def runCaptures (base maxE pcs : Nat) (L : List (List Nat × Nat)) (e : EEPROM) : EEPROM :=
  L.foldl (fun acc c => captureStep base maxE pcs c acc) e

/-- One per-report output line of `CrashMonitor::dump` (lines 119-128). -/
structure DumpEntry where
  reportIndex : Nat
  wordAddress : Nat
  byteAddress : Nat
  userData : Nat
deriving DecidableEq

/-- The report lines printed by `CrashMonitor::dump` (lines 108-130);
the fixed banner and header lines are not modelled, only the loop that
emits one line per saved report. -/
def dump (base maxE pcs : Nat) (e : EEPROM) (onlyIfPresent : Bool) : List DumpEntry :=
  let header := loadHeader base maxE e
  if (!onlyIfPresent) || (header.savedReports != 0) then
    (List.range header.savedReports).map (fun j =>
      let rep := loadReport base maxE pcs e j
      { reportIndex := j, wordAddress := leBytes rep.auAddress,
        byteAddress := leBytes rep.auAddress * 2, userData := rep.uData })
  else []

/-- The zeroing loop body of `CrashMonitor::clear` (lines 143-155): the
report is loaded back from its slot, the target address is recovered
from the report's own location bytes, and `sizeof(report)` zero bytes
are written there. -/
def clearStep (base maxE pcs : Nat) (e : EEPROM) (j : Nat) : EEPROM :=
  let rep := loadReport base maxE pcs e j
  writeBlock e (leBytes rep.auAddress) (List.replicate (pcs + 4) 0)

/-- `CrashMonitor::clear` (lines 132-162). -/
def clear (base maxE pcs : Nat) (e : EEPROM) : EEPROM :=
  let header := loadHeader base maxE e
  let e1 :=
    if header.savedReports ≠ 0 then
      (List.range header.savedReports).foldl (clearStep base maxE pcs) e
    else e
  saveHeader base { savedReports := 0, uNextReport := 0 } e1

/-- The storage address of slot `j` (valid slots only). -/
def slotAddr (base pcs j : Nat) : Nat := base + 2 + j * (pcs + 4)

/-- The byte image of the report produced by a capture. -/
def serializedCapture (c : List Nat × Nat) : List Nat := c.1 ++ toLE4 c.2

/-- Slot `j` of the store holds exactly the byte image of capture `c`. -/
def slotHolds (base pcs : Nat) (e : EEPROM) (j : Nat) (c : List Nat × Nat) : Prop :=
  ∀ t, t < pcs + 4 → readByte e (slotAddr base pcs j + t) = (serializedCapture c).getD t 0

/-- Well-formed capture inputs: each location is exactly `pcs` raw bytes. -/
abbrev goodCaps (pcs : Nat) (L : List (List Nat × Nat)) : Prop :=
  ∀ c, c ∈ L → c.1.length = pcs ∧ ∀ b, b ∈ c.1 → b < 256

/-- The raw `savedReports` byte persisted after `n` captures from an
empty store, following the handler exactly: validate the previous
value, then increment it unless the cursor wrapped. -/
def sCount (maxE : Nat) : Nat → Nat
  | 0 => 0
  | n + 1 =>
    if n % maxE + 1 ≥ maxE then clampS maxE (sCount maxE n)
    else clampS maxE (sCount maxE n) + 1

/-- State reached after `n` captures (drawn from `L`) on an initially
empty store: the validated header and the contents of the most recent
`maxE` slots. -/
def capState (base maxE pcs : Nat) (L : List (List Nat × Nat)) (n : Nat) (e : EEPROM) : Prop :=
  loadHeader base maxE e = ⟨clampS maxE (sCount maxE n), n % maxE⟩ ∧
  ∀ i, 1 ≤ i → i ≤ n → n - i < maxE →
    slotHolds base pcs e ((i - 1) % maxE) (L.getD (i - 1) ([], 0))

/-- An erased EEPROM: every cell reads the all-ones byte. -/
def erasedStore : EEPROM := fun _ => 255

/-- The zeroing target `clear` computes for report `j` (lines 149-150):
the report's own recovered location bytes reinterpreted as an address. -/
def recoveredAddr (base maxE pcs : Nat) (e : EEPROM) (j : Nat) : Nat :=
  leBytes ((loadReport base maxE pcs e j).auAddress)

theorem writeBlock_apply (l : List Nat) :
    ∀ (e : EEPROM) (a x : Nat),
      writeBlock e a l x =
        if a ≤ x ∧ x < a + l.length then l.getD (x - a) 0 % 256 else e x := by
  induction l with
  | nil =>
    intro e a x
    simp only [writeBlock, List.length_nil, Nat.add_zero]
    rw [if_neg]
    omega
  | cons b bs ih =>
    intro e a x
    show writeBlock (writeByte e a b) (a + 1) bs x = _
    rw [ih]
    by_cases h1 : a + 1 ≤ x ∧ x < a + 1 + bs.length
    · rw [if_pos h1, if_pos (by simp only [List.length_cons]; omega)]
      have hx : x - a = (x - (a + 1)) + 1 := by omega
      rw [hx, List.getD_cons_succ]
    · rw [if_neg h1]
      unfold writeByte
      by_cases h2 : x = a
      · subst h2
        rw [if_pos rfl, if_pos (by simp only [List.length_cons]; omega)]
        simp
      · rw [if_neg h2, if_neg (by simp only [List.length_cons]; omega)]

theorem readByte_lt (e : EEPROM) (a : Nat) : readByte e a < 256 :=
  Nat.mod_lt _ (by omega)

theorem readByte_writeBlock (e : EEPROM) (a : Nat) (l : List Nat) (x : Nat) :
    readByte (writeBlock e a l) x =
      if a ≤ x ∧ x < a + l.length then l.getD (x - a) 0 % 256 else readByte e x := by
  unfold readByte
  rw [writeBlock_apply]
  by_cases h : a ≤ x ∧ x < a + l.length
  · rw [if_pos h, if_pos h]
    omega
  · rw [if_neg h, if_neg h]

theorem readBlock_length (e : EEPROM) (a n : Nat) : (readBlock e a n).length = n := by
  simp [readBlock]

theorem readBlock_getD (e : EEPROM) (a n i : Nat) (h : i < n) :
    (readBlock e a n).getD i 0 = readByte e (a + i) := by
  unfold readBlock
  rw [List.getD_eq_getElem _ _ (by simpa using h), List.getElem_map, List.getElem_range]

theorem readBlock_congr (e1 e2 : EEPROM) (a n : Nat)
    (h : ∀ t, t < n → e1 (a + t) = e2 (a + t)) :
    readBlock e1 a n = readBlock e2 a n := by
  unfold readBlock
  refine List.map_congr_left (fun i hi => ?_)
  rw [List.mem_range] at hi
  unfold readByte
  rw [h i hi]

theorem clampS_le (maxE x : Nat) : clampS maxE x ≤ maxE := by
  unfold clampS
  split
  · omega
  · split
    · exact Nat.le_trans (Nat.mod_le _ _) (Nat.le_refl _)
    · omega

theorem clampS_le_254 (maxE x : Nat) (hx : x < 256) (hm : maxE ≤ 255) :
    clampS maxE x ≤ 254 := by
  unfold clampS
  split
  · omega
  · split
    · omega
    · omega

theorem clampS_small (maxE x : Nat) (h1 : x ≤ maxE) (h2 : x ≠ 255) : clampS maxE x = x := by
  unfold clampS
  rw [if_neg h2, if_neg (by omega)]

theorem clampS_of_ge (maxE x : Nat) (h1 : maxE ≤ x) (h2 : x ≤ maxE + 1) (h3 : maxE ≤ 253) :
    clampS maxE x = maxE := by
  unfold clampS
  split
  · omega
  · split
    · omega
    · omega

theorem loadHeader_savedReports (base maxE : Nat) (e : EEPROM) :
    (loadHeader base maxE e).savedReports = clampS maxE (readByte e base) := rfl

theorem loadHeader_saved_le (base maxE : Nat) (e : EEPROM) :
    (loadHeader base maxE e).savedReports ≤ maxE := clampS_le _ _

theorem loadHeader_saved_le_254 (base maxE : Nat) (e : EEPROM) (hm : maxE ≤ 255) :
    (loadHeader base maxE e).savedReports ≤ 254 :=
  clampS_le_254 _ _ (readByte_lt e base) hm

theorem loadHeader_next_lt (base maxE : Nat) (e : EEPROM) (hm : 1 ≤ maxE) :
    (loadHeader base maxE e).uNextReport < maxE := by
  show (if readByte e (base + 1) ≥ maxE then 0 else readByte e (base + 1)) < maxE
  split
  · omega
  · omega

theorem le4_toLE4 (d : Nat) (h : d < 4294967296) : le4 (toLE4 d) = d := by
  unfold le4 toLE4
  simp only [List.getD_cons_zero, List.getD_cons_succ]
  omega

theorem toLE4_mem_lt (d b : Nat) (h : b ∈ toLE4 d) : b < 256 := by
  unfold toLE4 at h
  simp only [List.mem_cons, List.not_mem_nil, or_false] at h
  rcases h with h | h | h | h <;> (subst h; exact Nat.mod_lt _ (by omega))

theorem serializedCapture_getD_lt (c : List Nat × Nat) (t : Nat)
    (hb : ∀ b, b ∈ c.1 → b < 256) : (serializedCapture c).getD t 0 < 256 := by
  by_cases h : t < (serializedCapture c).length
  · rw [List.getD_eq_getElem _ _ h]
    have hmem := List.getElem_mem h
    unfold serializedCapture at hmem
    rw [List.mem_append] at hmem
    rcases hmem with hm | hm
    · exact hb _ hm
    · exact toLE4_mem_lt _ _ hm
  · rw [List.getD_eq_default _ _ (by omega)]
    omega

theorem succMod (m n : Nat) (hm : 1 ≤ m) :
    (n + 1) % m = if n % m + 1 ≥ m then 0 else n % m + 1 := by
  have h1 : n % m < m := Nat.mod_lt _ (by omega)
  rcases Nat.eq_or_lt_of_le hm with hm1 | hm2
  · subst hm1
    rw [if_pos (by omega)]
    omega
  · rw [Nat.add_mod, Nat.mod_eq_of_lt hm2]
    split
    · have h2 : n % m + 1 = m := by omega
      rw [h2, Nat.mod_self]
    · rw [Nat.mod_eq_of_lt (by omega)]

theorem getAddr_eq_slotAddr (base maxE pcs j : Nat) (h : j < maxE) :
    getAddressForReport base maxE pcs j = slotAddr base pcs j := by
  unfold getAddressForReport slotAddr
  rw [if_pos h]

theorem serializeReport_length (r : CCrashReport) :
    (serializeReport r).length = r.auAddress.length + 4 := by
  simp [serializeReport, toLE4]

theorem handler_eq (base maxE pcs : Nat) (loc : List Nat) (uData : Nat) (e : EEPROM)
    (hm1 : 1 ≤ maxE) (hm2 : maxE ≤ 255) :
    watchDogInterruptHandler base maxE pcs loc uData e =
      saveHeader base
        (if (loadHeader base maxE e).uNextReport + 1 ≥ maxE then
          ⟨(loadHeader base maxE e).savedReports, 0⟩
        else
          ⟨((loadHeader base maxE e).savedReports + 1) % 256,
            (loadHeader base maxE e).uNextReport + 1⟩)
        (saveCurrentReport base maxE pcs ⟨loc, uData⟩ (loadHeader base maxE e).uNextReport e) := by
  have hlt : (loadHeader base maxE e).uNextReport + 1 < 256 := by
    have := loadHeader_next_lt base maxE e hm1
    omega
  simp only [watchDogInterruptHandler]
  rw [Nat.mod_eq_of_lt hlt]

theorem handler_saved (base maxE pcs : Nat) (loc : List Nat) (uData : Nat) (e : EEPROM)
    (hm1 : 1 ≤ maxE) (hm2 : maxE ≤ 255) (hlen : loc.length = pcs) :
    readByte (watchDogInterruptHandler base maxE pcs loc uData e) base =
      if (loadHeader base maxE e).uNextReport + 1 ≥ maxE then
        (loadHeader base maxE e).savedReports
      else (loadHeader base maxE e).savedReports + 1 := by
  have hs : (loadHeader base maxE e).savedReports ≤ 254 :=
    loadHeader_saved_le_254 base maxE e hm2
  rw [handler_eq base maxE pcs loc uData e hm1 hm2]
  unfold saveHeader
  rw [readByte_writeBlock]
  split
  · rw [if_pos (by simp)]
    simp only [Nat.sub_self, List.getD_cons_zero]
    omega
  · rw [if_pos (by simp)]
    simp only [Nat.sub_self, List.getD_cons_zero]
    omega

theorem handler_next (base maxE pcs : Nat) (loc : List Nat) (uData : Nat) (e : EEPROM)
    (hm1 : 1 ≤ maxE) (hm2 : maxE ≤ 255) (hlen : loc.length = pcs) :
    readByte (watchDogInterruptHandler base maxE pcs loc uData e) (base + 1) =
      if (loadHeader base maxE e).uNextReport + 1 ≥ maxE then 0
      else (loadHeader base maxE e).uNextReport + 1 := by
  have hn : (loadHeader base maxE e).uNextReport < maxE := loadHeader_next_lt base maxE e hm1
  rw [handler_eq base maxE pcs loc uData e hm1 hm2]
  unfold saveHeader
  rw [readByte_writeBlock]
  split
  · rw [if_pos (by simp)]
    simp only [show base + 1 - base = 1 by omega, List.getD_cons_succ, List.getD_cons_zero]
  · rw [if_pos (by simp)]
    simp only [show base + 1 - base = 1 by omega, List.getD_cons_succ, List.getD_cons_zero]
    omega

theorem handler_slot (base maxE pcs : Nat) (loc : List Nat) (uData : Nat) (e : EEPROM)
    (hm1 : 1 ≤ maxE) (hm2 : maxE ≤ 255) (hlen : loc.length = pcs)
    (t : Nat) (ht : t < pcs + 4) :
    readByte (watchDogInterruptHandler base maxE pcs loc uData e)
        (slotAddr base pcs (loadHeader base maxE e).uNextReport + t) =
      (loc ++ toLE4 uData).getD t 0 % 256 := by
  have hn : (loadHeader base maxE e).uNextReport < maxE := loadHeader_next_lt base maxE e hm1
  rw [handler_eq base maxE pcs loc uData e hm1 hm2]
  unfold saveHeader
  rw [readByte_writeBlock]
  rw [if_neg (by unfold slotAddr; simp only [List.length_cons, List.length_nil]; omega)]
  unfold saveCurrentReport
  rw [getAddr_eq_slotAddr base maxE pcs _ hn, readByte_writeBlock]
  have hlen2 : (serializeReport ⟨loc, uData⟩).length = pcs + 4 := by
    rw [serializeReport_length]
    simp [hlen]
  rw [if_pos (by rw [hlen2]; omega)]
  have : slotAddr base pcs (loadHeader base maxE e).uNextReport + t -
      slotAddr base pcs (loadHeader base maxE e).uNextReport = t := by omega
  rw [this]
  simp [serializeReport]

theorem handler_frame (base maxE pcs : Nat) (loc : List Nat) (uData : Nat) (e : EEPROM)
    (hm1 : 1 ≤ maxE) (hm2 : maxE ≤ 255) (hlen : loc.length = pcs)
    (x : Nat) (hx0 : x ≠ base) (hx1 : x ≠ base + 1)
    (hx2 : x < slotAddr base pcs (loadHeader base maxE e).uNextReport ∨
      slotAddr base pcs (loadHeader base maxE e).uNextReport + (pcs + 4) ≤ x) :
    watchDogInterruptHandler base maxE pcs loc uData e x = e x := by
  have hn : (loadHeader base maxE e).uNextReport < maxE := loadHeader_next_lt base maxE e hm1
  rw [handler_eq base maxE pcs loc uData e hm1 hm2]
  unfold saveHeader
  rw [writeBlock_apply]
  rw [if_neg (by simp only [List.length_cons, List.length_nil]; omega)]
  unfold saveCurrentReport
  rw [getAddr_eq_slotAddr base maxE pcs _ hn, writeBlock_apply]
  have hlen2 : (serializeReport ⟨loc, uData⟩).length = pcs + 4 := by
    rw [serializeReport_length]
    simp [hlen]
  rw [if_neg (by rw [hlen2]; omega)]

theorem sCount_le (maxE n : Nat) : sCount maxE n ≤ maxE + 1 := by
  induction n with
  | zero => simp [sCount]
  | succ k ih =>
    show (if k % maxE + 1 ≥ maxE then clampS maxE (sCount maxE k)
      else clampS maxE (sCount maxE k) + 1) ≤ maxE + 1
    have := clampS_le maxE (sCount maxE k)
    split
    · omega
    · omega

theorem sCount_of_lt (maxE n : Nat) (hm1 : 2 ≤ maxE) (hm2 : maxE ≤ 253) (hn : n < maxE) :
    sCount maxE n = n := by
  induction n with
  | zero => rfl
  | succ k ih =>
    show (if k % maxE + 1 ≥ maxE then clampS maxE (sCount maxE k)
      else clampS maxE (sCount maxE k) + 1) = k + 1
    rw [ih (by omega), Nat.mod_eq_of_lt (by omega), if_neg (by omega),
      clampS_small maxE k (by omega) (by omega)]

theorem sCount_at_max (maxE : Nat) (hm1 : 2 ≤ maxE) (hm2 : maxE ≤ 253) :
    sCount maxE maxE = maxE - 1 := by
  obtain ⟨k, rfl⟩ : ∃ k, maxE = k + 1 := ⟨maxE - 1, by omega⟩
  show (if k % (k + 1) + 1 ≥ k + 1 then clampS (k + 1) (sCount (k + 1) k)
    else clampS (k + 1) (sCount (k + 1) k) + 1) = k + 1 - 1
  rw [sCount_of_lt (k + 1) k hm1 hm2 (by omega), Nat.mod_eq_of_lt (by omega),
    if_pos (by omega), clampS_small (k + 1) k (by omega) (by omega)]
  omega

theorem sCount_of_gt (maxE n : Nat) (hm1 : 2 ≤ maxE) (hm2 : maxE ≤ 253)
    (hn : maxE + 1 ≤ n) : maxE ≤ sCount maxE n := by
  induction n with
  | zero => omega
  | succ k ih =>
    show maxE ≤ (if k % maxE + 1 ≥ maxE then clampS maxE (sCount maxE k)
      else clampS maxE (sCount maxE k) + 1)
    rcases Nat.lt_or_ge k (maxE + 1) with hk | hk
    · -- k = maxE exactly, since maxE + 1 ≤ k + 1
      have hkm : k = maxE := by omega
      rw [hkm, sCount_at_max maxE hm1 hm2, Nat.mod_self, if_neg (by omega),
        clampS_small maxE (maxE - 1) (by omega) (by omega)]
      omega
    · have h1 := ih (by omega)
      have h2 := sCount_le maxE k
      rw [clampS_of_ge maxE (sCount maxE k) h1 h2 hm2]
      split
      · omega
      · omega

theorem runCaptures_nil (base maxE pcs : Nat) (e : EEPROM) :
    runCaptures base maxE pcs [] e = e := rfl

theorem runCaptures_take_succ (base maxE pcs : Nat) (L : List (List Nat × Nat))
    (n : Nat) (e : EEPROM) (hn : n < L.length) :
    runCaptures base maxE pcs (L.take (n + 1)) e =
      captureStep base maxE pcs (L.getD n ([], 0)) (runCaptures base maxE pcs (L.take n) e) := by
  unfold runCaptures
  rw [List.take_succ, List.getElem?_eq_getElem hn]
  show ((L.take n) ++ [L[n]]).foldl _ e = _
  rw [List.foldl_append, List.getD_eq_getElem L ([], 0) hn]
  rfl

theorem slotAddr_mono (base pcs j j' t : Nat) (h : j < j') (ht : t < pcs + 4) :
    slotAddr base pcs j + t < slotAddr base pcs j' := by
  unfold slotAddr
  have h1 : j * (pcs + 4) + t < (j + 1) * (pcs + 4) := by
    rw [Nat.succ_mul]
    omega
  have h2 : (j + 1) * (pcs + 4) ≤ j' * (pcs + 4) := Nat.mul_le_mul_right _ h
  omega

theorem slotAddr_ge (base pcs j t : Nat) : base + 2 ≤ slotAddr base pcs j + t := by
  unfold slotAddr
  omega

theorem residue_ne (m i n : Nat) (hm : 1 ≤ m) (h1 : 1 ≤ i) (h2 : i ≤ n)
    (h3 : n + 1 - i < m) : (i - 1) % m ≠ n % m := by
  intro heq
  have hle : i - 1 ≤ n := by omega
  have hdvd : m ∣ n - (i - 1) := (Nat.modEq_iff_dvd' hle).mp heq
  have hpos : 1 ≤ n - (i - 1) := by omega
  have := Nat.le_of_dvd (by omega) hdvd
  omega

theorem capState_init (base maxE pcs : Nat) (L : List (List Nat × Nat)) (e : EEPROM)
    (he : loadHeader base maxE e = ⟨0, 0⟩) : capState base maxE pcs L 0 e := by
  constructor
  · rw [he]
    show (⟨0, 0⟩ : CCrashMonitorHeader) = ⟨clampS maxE 0, 0 % maxE⟩
    rw [clampS_small maxE 0 (by omega) (by omega), Nat.zero_mod]
  · intro i h1 h2 h3
    omega

theorem capState_step (base maxE pcs : Nat) (L : List (List Nat × Nat)) (n : Nat) (e : EEPROM)
    (hm1 : 2 ≤ maxE) (hm2 : maxE ≤ 253) (hL : goodCaps pcs L) (hn : n < L.length)
    (hst : capState base maxE pcs L n e) :
    capState base maxE pcs L (n + 1) (captureStep base maxE pcs (L.getD n ([], 0)) e) := by
  obtain ⟨hhead, hslots⟩ := hst
  have hm1' : 1 ≤ maxE := by omega
  have hm2' : maxE ≤ 255 := by omega
  have hc : L.getD n ([], 0) ∈ L := by
    rw [List.getD_eq_getElem L ([], 0) hn]
    exact List.getElem_mem hn
  obtain ⟨hclen, hcbytes⟩ := hL _ hc
  have hmod : n % maxE < maxE := Nat.mod_lt _ (by omega)
  have hmod1 : (n + 1) % maxE < maxE := Nat.mod_lt _ (by omega)
  have hnext : (loadHeader base maxE e).uNextReport = n % maxE := by rw [hhead]
  have hsaved : (loadHeader base maxE e).savedReports = clampS maxE (sCount maxE n) := by
    rw [hhead]
  have hsaved' :
      readByte (captureStep base maxE pcs (L.getD n ([], 0)) e) base = sCount maxE (n + 1) := by
    show readByte (watchDogInterruptHandler base maxE pcs (L.getD n ([], 0)).1
      (L.getD n ([], 0)).2 e) base = sCount maxE (n + 1)
    rw [handler_saved base maxE pcs _ _ e hm1' hm2' hclen, hnext, hsaved]
    show _ = (if n % maxE + 1 ≥ maxE then clampS maxE (sCount maxE n)
      else clampS maxE (sCount maxE n) + 1)
    rfl
  have hnext' : readByte (captureStep base maxE pcs (L.getD n ([], 0)) e) (base + 1) =
      (n + 1) % maxE := by
    show readByte (watchDogInterruptHandler base maxE pcs (L.getD n ([], 0)).1
      (L.getD n ([], 0)).2 e) (base + 1) = (n + 1) % maxE
    rw [handler_next base maxE pcs _ _ e hm1' hm2' hclen, hnext, succMod maxE n (by omega)]
  constructor
  · show loadHeader base maxE _ = _
    unfold loadHeader
    rw [hsaved', hnext', if_neg (by omega)]
  · intro i h1 h2 h3
    rcases Nat.eq_or_lt_of_le h2 with hi | hi
    · -- the capture just performed
      have hi1 : i - 1 = n := by omega
      rw [hi1]
      intro t ht
      show readByte (watchDogInterruptHandler base maxE pcs (L.getD n ([], 0)).1
        (L.getD n ([], 0)).2 e) (slotAddr base pcs (n % maxE) + t) = _
      rw [show (n % maxE) = (loadHeader base maxE e).uNextReport from hnext.symm,
        handler_slot base maxE pcs _ _ e hm1' hm2' hclen t ht]
      show (serializedCapture (L.getD n ([], 0))).getD t 0 % 256 = _
      rw [Nat.mod_eq_of_lt (serializedCapture_getD_lt _ t hcbytes)]
    · -- an older capture, in a different slot
      have hi2 : i ≤ n := by omega
      have hne : (i - 1) % maxE ≠ n % maxE :=
        residue_ne maxE i n (by omega) h1 hi2 (by omega)
      intro t ht
      have hold := hslots i h1 hi2 (by omega) t ht
      rw [← hold]
      show readByte (watchDogInterruptHandler base maxE pcs (L.getD n ([], 0)).1
        (L.getD n ([], 0)).2 e) (slotAddr base pcs ((i - 1) % maxE) + t) = _
      unfold readByte
      rw [handler_frame base maxE pcs _ _ e hm1' hm2' hclen _
        (by have := slotAddr_ge base pcs ((i - 1) % maxE) t; omega)
        (by have := slotAddr_ge base pcs ((i - 1) % maxE) t; omega) ?_]
      rw [hnext]
      rcases Nat.lt_or_ge ((i - 1) % maxE) (n % maxE) with hlt | hge
      · left
        exact slotAddr_mono base pcs _ _ t hlt ht
      · right
        have hgt : n % maxE < (i - 1) % maxE := by omega
        have h5 : slotAddr base pcs (n % maxE) + (pcs + 4) ≤
            slotAddr base pcs ((i - 1) % maxE) := by
          unfold slotAddr
          have ha : (n % maxE + 1) * (pcs + 4) ≤ ((i - 1) % maxE) * (pcs + 4) :=
            Nat.mul_le_mul_right _ hgt
          rw [Nat.succ_mul] at ha
          omega
        omega

theorem capState_run (base maxE pcs : Nat) (L : List (List Nat × Nat)) (e : EEPROM)
    (hm1 : 2 ≤ maxE) (hm2 : maxE ≤ 253) (hL : goodCaps pcs L)
    (he : loadHeader base maxE e = ⟨0, 0⟩) :
    ∀ n, n ≤ L.length → capState base maxE pcs L n (runCaptures base maxE pcs (L.take n) e) := by
  intro n
  induction n with
  | zero =>
    intro _
    show capState base maxE pcs L 0 (runCaptures base maxE pcs [] e)
    rw [runCaptures_nil]
    exact capState_init base maxE pcs L e he
  | succ k ih =>
    intro hk
    rw [runCaptures_take_succ base maxE pcs L k e (by omega)]
    exact capState_step base maxE pcs L k _ hm1 hm2 hL (by omega) (ih (by omega))

/-- Claim C1: on every capture, after loading and validating the header,
the working report is persisted into the slot indexed by the loaded
header's nextReport; nextReport is advanced and reset to 0 when it
reaches maxEntries; savedReports is incremented exactly when the
advanced cursor is still below maxEntries; and the updated header is
persisted.  Stated for representable configurations (1 ≤ maxEntries ≤ 255,
location bytes in range). -/
theorem claimC1_capture_protocol (base maxE pcs : Nat) (loc : List Nat) (uData : Nat)
    (e : EEPROM) (hm1 : 1 ≤ maxE) (hm2 : maxE ≤ 255) (hlen : loc.length = pcs)
    (hbytes : ∀ b, b ∈ loc → b < 256) :
    (∀ t, t < pcs + 4 →
      readByte (watchDogInterruptHandler base maxE pcs loc uData e)
          (slotAddr base pcs (loadHeader base maxE e).uNextReport + t) =
        (serializeReport ⟨loc, uData⟩).getD t 0) ∧
    readByte (watchDogInterruptHandler base maxE pcs loc uData e) (base + 1) =
      (if (loadHeader base maxE e).uNextReport + 1 ≥ maxE then 0
        else (loadHeader base maxE e).uNextReport + 1) ∧
    readByte (watchDogInterruptHandler base maxE pcs loc uData e) base =
      (if (loadHeader base maxE e).uNextReport + 1 ≥ maxE then
        (loadHeader base maxE e).savedReports
        else (loadHeader base maxE e).savedReports + 1) := by
  refine ⟨?_, handler_next base maxE pcs loc uData e hm1 hm2 hlen,
    handler_saved base maxE pcs loc uData e hm1 hm2 hlen⟩
  intro t ht
  rw [handler_slot base maxE pcs loc uData e hm1 hm2 hlen t ht]
  show (serializedCapture (loc, uData)).getD t 0 % 256 = _
  rw [Nat.mod_eq_of_lt (serializedCapture_getD_lt (loc, uData) t hbytes)]
  rfl

/-- Witness for C1 at a concrete input. -/
theorem claimC1_witness :
    (∀ t, t < 2 + 4 →
      readByte (watchDogInterruptHandler 500 3 2 [7, 8] 9 erasedStore)
          (slotAddr 500 2 (loadHeader 500 3 erasedStore).uNextReport + t) =
        (serializeReport ⟨[7, 8], 9⟩).getD t 0) ∧
    readByte (watchDogInterruptHandler 500 3 2 [7, 8] 9 erasedStore) (500 + 1) =
      (if (loadHeader 500 3 erasedStore).uNextReport + 1 ≥ 3 then 0
        else (loadHeader 500 3 erasedStore).uNextReport + 1) ∧
    readByte (watchDogInterruptHandler 500 3 2 [7, 8] 9 erasedStore) 500 =
      (if (loadHeader 500 3 erasedStore).uNextReport + 1 ≥ 3 then
        (loadHeader 500 3 erasedStore).savedReports
        else (loadHeader 500 3 erasedStore).savedReports + 1) :=
  claimC1_capture_protocol 500 3 2 [7, 8] 9 erasedStore (by decide) (by decide)
    (by decide) (by decide)

/-- Claim C2: for every raw content of the header region and every
maxEntries ≥ 1, loadHeader is total and returns an in-range header:
savedReports ≤ maxEntries, nextReport < maxEntries, and a raw 0xFF
savedReports byte is read as 0. -/
theorem claimC2_loadHeader_total_valid (base maxE : Nat) (e : EEPROM) (hm : 1 ≤ maxE) :
    (loadHeader base maxE e).savedReports ≤ maxE ∧
    (loadHeader base maxE e).uNextReport < maxE ∧
    (readByte e base = 255 → (loadHeader base maxE e).savedReports = 0) := by
  refine ⟨loadHeader_saved_le base maxE e, loadHeader_next_lt base maxE e hm, ?_⟩
  intro h255
  rw [loadHeader_savedReports, h255]
  rfl

/-- Witness for C2 at a concrete input (the erased store). -/
theorem claimC2_witness :
    (loadHeader 500 10 erasedStore).savedReports ≤ 10 ∧
    (loadHeader 500 10 erasedStore).uNextReport < 10 ∧
    (readByte erasedStore 500 = 255 → (loadHeader 500 10 erasedStore).savedReports = 0) :=
  claimC2_loadHeader_total_valid 500 10 erasedStore (by decide)

/-- Claim C3 counterexample: with maxEntries = 3, after exactly 3 captures
from an empty (erased) store `isFull` is still false, while the claim
says it is true from the third capture on: the capture that wraps the
cursor back to 0 does not increment savedReports. -/
theorem claimC3_counterexample :
    isFull 500 3 (runCaptures 500 3 2 [([1, 0], 0), ([2, 0], 0), ([3, 0], 0)] erasedStore)
      = false := by decide

/-- Claim C3 (amended): for 2 ≤ maxEntries ≤ 253, starting from an empty
store, `isFull` is false until exactly maxEntries + 1 captures have
occurred and true from that point on. -/
theorem claimC3_isFull_threshold (base maxE pcs : Nat) (L : List (List Nat × Nat))
    (e : EEPROM) (hm1 : 2 ≤ maxE) (hm2 : maxE ≤ 253) (hL : goodCaps pcs L)
    (he : loadHeader base maxE e = ⟨0, 0⟩) :
    ∀ n, n ≤ L.length →
      isFull base maxE (runCaptures base maxE pcs (L.take n) e) = decide (maxE + 1 ≤ n) := by
  intro n hn
  rcases n with _ | k
  · rw [List.take_zero, runCaptures_nil]
    unfold isFull
    rw [he, decide_eq_decide]
    show 0 ≥ maxE ↔ maxE + 1 ≤ 0
    omega
  · obtain ⟨hhead, _⟩ := capState_run base maxE pcs L e hm1 hm2 hL he (k + 1) hn
    unfold isFull
    rw [hhead, decide_eq_decide]
    show clampS maxE (sCount maxE (k + 1)) ≥ maxE ↔ maxE + 1 ≤ k + 1
    rcases Nat.lt_trichotomy (k + 1) maxE with h | h | h
    · rw [sCount_of_lt maxE (k + 1) hm1 hm2 h,
        clampS_small maxE (k + 1) (by omega) (by omega)]
      omega
    · rw [h, sCount_at_max maxE hm1 hm2,
        clampS_small maxE (maxE - 1) (by omega) (by omega)]
      omega
    · rw [clampS_of_ge maxE _ (sCount_of_gt maxE (k + 1) hm1 hm2 (by omega))
        (sCount_le maxE (k + 1)) hm2]
      omega

/-- Witness for the amended C3 at concrete inputs: still not full after
maxEntries = 2 captures, full after 3. -/
theorem claimC3_witness :
    isFull 500 2 (runCaptures 500 2 2
        (([([1, 0], 0), ([2, 0], 0), ([3, 0], 0)] : List (List Nat × Nat)).take 2)
        erasedStore) = decide (2 + 1 ≤ 2) ∧
    isFull 500 2 (runCaptures 500 2 2
        (([([1, 0], 0), ([2, 0], 0), ([3, 0], 0)] : List (List Nat × Nat)).take 3)
        erasedStore) = decide (2 + 1 ≤ 3) :=
  ⟨claimC3_isFull_threshold 500 2 2 [([1, 0], 0), ([2, 0], 0), ([3, 0], 0)] erasedStore
      (by decide) (by decide) (by decide) (by decide) 2 (by decide),
    claimC3_isFull_threshold 500 2 2 [([1, 0], 0), ([2, 0], 0), ([3, 0], 0)] erasedStore
      (by decide) (by decide) (by decide) (by decide) 3 (by decide)⟩

/-- Claim C4 counterexample: with maxEntries = 1 and k = 1, two captures
from an empty store leave savedReports = 0, not maxEntries = 1: every
capture wraps the cursor, so savedReports never grows. -/
theorem claimC4_counterexample :
    (loadHeader 500 1 (runCaptures 500 1 2 [([1, 0], 0), ([2, 0], 0)]
      erasedStore)).savedReports = 0 ∧
    (loadHeader 500 1 (runCaptures 500 1 2 [([1, 0], 0), ([2, 0], 0)]
      erasedStore)).savedReports ≠ 1 := by decide

/-- Claim C4 (amended): for 2 ≤ maxEntries ≤ 253 and k ≥ 1, after
maxEntries + k captures from an empty store the validated header's
savedReports equals maxEntries, and the slots hold exactly the most
recent maxEntries captures in circular, oldest-overwritten order. -/
theorem claimC4_circular_retention (base maxE pcs k : Nat) (L : List (List Nat × Nat))
    (e : EEPROM) (hm1 : 2 ≤ maxE) (hm2 : maxE ≤ 253) (hk : 1 ≤ k)
    (hlen : L.length = maxE + k) (hL : goodCaps pcs L)
    (he : loadHeader base maxE e = ⟨0, 0⟩) :
    (loadHeader base maxE (runCaptures base maxE pcs L e)).savedReports = maxE ∧
    ∀ i, 1 ≤ i → i ≤ maxE + k → maxE + k - i < maxE →
      slotHolds base pcs (runCaptures base maxE pcs L e) ((i - 1) % maxE)
        (L.getD (i - 1) ([], 0)) := by
  have h0 := capState_run base maxE pcs L e hm1 hm2 hL he L.length (Nat.le_refl _)
  rw [List.take_length] at h0
  obtain ⟨hhead, hslots⟩ := h0
  constructor
  · rw [hhead]
    show clampS maxE (sCount maxE L.length) = maxE
    rw [hlen]
    exact clampS_of_ge maxE _ (sCount_of_gt maxE _ hm1 hm2 (by omega))
      (sCount_le maxE _) hm2
  · intro i h1 h2 h3
    exact hslots i h1 (by omega) (by omega)

/-- Witness for the amended C4 at a concrete input. -/
theorem claimC4_witness :
    (loadHeader 500 2 (runCaptures 500 2 2 [([1, 0], 0), ([2, 0], 0), ([3, 0], 0)]
      erasedStore)).savedReports = 2 ∧
    ∀ i, 1 ≤ i → i ≤ 2 + 1 → 2 + 1 - i < 2 →
      slotHolds 500 2 (runCaptures 500 2 2 [([1, 0], 0), ([2, 0], 0), ([3, 0], 0)]
        erasedStore) ((i - 1) % 2)
        (([([1, 0], 0), ([2, 0], 0), ([3, 0], 0)] : List (List Nat × Nat)).getD (i - 1) ([], 0)) :=
  claimC4_circular_retention 500 2 2 1 [([1, 0], 0), ([2, 0], 0), ([3, 0], 0)] erasedStore
    (by decide) (by decide) (by decide) (by decide) (by decide) (by decide)

/-- Claim C5: with maxEntries = 3, four captures at word addresses
0x100, 0x200, 0x300, 0x400 on an initially empty store leave the header
at savedReports = 3, nextReport = 1; slot 0 holds the 0x400 report
(capture 4 overwrote capture 1), slot 1 holds 0x200, slot 2 holds 0x300.
The raw stack bytes [1,0] etc. decode to word address 0x100 after the
load-time byte swap. -/
theorem claimC5_scenario :
    loadHeader 500 3 (runCaptures 500 3 2
        [([1, 0], 0), ([2, 0], 0), ([3, 0], 0), ([4, 0], 0)] erasedStore) = ⟨3, 1⟩ ∧
    leBytes (loadReport 500 3 2 (runCaptures 500 3 2
        [([1, 0], 0), ([2, 0], 0), ([3, 0], 0), ([4, 0], 0)] erasedStore) 0).auAddress = 1024 ∧
    leBytes (loadReport 500 3 2 (runCaptures 500 3 2
        [([1, 0], 0), ([2, 0], 0), ([3, 0], 0), ([4, 0], 0)] erasedStore) 1).auAddress = 512 ∧
    leBytes (loadReport 500 3 2 (runCaptures 500 3 2
        [([1, 0], 0), ([2, 0], 0), ([3, 0], 0), ([4, 0], 0)] erasedStore) 2).auAddress = 768 := by
  decide

/-- Claim C9 counterexample: a raw savedReports byte of 255 strictly
exceeds maxEntries = 3, yet loadHeader yields savedReports = 0, not 3:
the 0xFF sentinel rule takes precedence over clamping. -/
theorem claimC9_counterexample :
    3 < readByte erasedStore 500 ∧
    (loadHeader 500 3 erasedStore).savedReports = 0 ∧
    (loadHeader 500 3 erasedStore).savedReports ≠ 3 := by decide

/-- Claim C9 (amended): for every raw savedReports byte strictly greater
than maxEntries and different from the 0xFF sentinel, loading the header
yields savedReports = maxEntries. -/
theorem claimC9_clamped (base maxE : Nat) (e : EEPROM)
    (hgt : maxE < readByte e base) (hsent : readByte e base ≠ 255) :
    (loadHeader base maxE e).savedReports = maxE := by
  have hlt := readByte_lt e base
  rw [loadHeader_savedReports]
  unfold clampS
  rw [if_neg hsent, if_pos hgt, Nat.mod_eq_of_lt (by omega)]

/-- Witness for the amended C9 at a concrete input. -/
theorem claimC9_witness :
    (loadHeader 500 3 (fun _ => 254 : EEPROM)).savedReports = 3 :=
  claimC9_clamped 500 3 (fun _ => 254 : EEPROM) (by decide) (by decide)

/-- Claim C10: getAddressForReport is total over all indices; for every
index ≥ maxEntries it returns base + sizeof(header) = base + 2, the same
address it returns for slot 0. -/
theorem claimC10_outOfRange_aliases_slot0 (base maxE pcs i : Nat) (h : maxE ≤ i) :
    getAddressForReport base maxE pcs i = base + 2 ∧
    getAddressForReport base maxE pcs i = getAddressForReport base maxE pcs 0 := by
  have h1 : getAddressForReport base maxE pcs i = base + 2 := by
    unfold getAddressForReport
    rw [if_neg (by omega)]
  refine ⟨h1, ?_⟩
  rw [h1]
  unfold getAddressForReport
  split
  · omega
  · rfl

/-- Witness for C10 at a concrete input. -/
theorem claimC10_witness :
    getAddressForReport 500 3 2 7 = 502 ∧
    getAddressForReport 500 3 2 7 = getAddressForReport 500 3 2 0 :=
  claimC10_outOfRange_aliases_slot0 500 3 2 7 (by decide)

theorem readBlock_getElem (e : EEPROM) (a n i : Nat) (h : i < (readBlock e a n).length) :
    (readBlock e a n)[i] = readByte e (a + i) := by
  unfold readBlock
  rw [List.getElem_map, List.getElem_range]

theorem map_mod_id (l : List Nat) (h : ∀ b, b ∈ l → b < 256) :
    l.map (fun b => b % 256) = l := by
  conv_rhs => rw [← List.map_id l]
  exact List.map_congr_left (fun a ha => Nat.mod_eq_of_lt (h a ha))

theorem readBlock_writeBlock (e : EEPROM) (a : Nat) (l : List Nat) :
    readBlock (writeBlock e a l) a l.length = l.map (fun b => b % 256) := by
  apply List.ext_getElem
  · rw [readBlock_length, List.length_map]
  · intro i h1 h2
    have h3 : i < l.length := by rw [readBlock_length] at h1; exact h1
    rw [List.getElem_map, readBlock_getElem, readByte_writeBlock,
      if_pos (by omega), List.getD_eq_getElem _ _ (show a + i - a < l.length by omega)]
    congr 2
    omega

theorem serializeReport_mem_lt (r : CCrashReport) (hb : ∀ b, b ∈ r.auAddress → b < 256) :
    ∀ b, b ∈ serializeReport r → b < 256 := by
  intro b hmem
  unfold serializeReport at hmem
  rw [List.mem_append] at hmem
  rcases hmem with h | h
  · exact hb b h
  · exact toLE4_mem_lt _ b h

/-- Claim C7: for every valid maxEntries ≥ 1 and slot i < maxEntries,
saving a report to slot i and loading slot i back (with no intervening
writes) yields the same userTag, and the location bytes come back
exactly end-swapped by the defined byte-order fix-up. -/
theorem claimC7_save_load_roundtrip (base maxE pcs i : Nat) (r : CCrashReport) (e : EEPROM)
    (hi : i < maxE) (hlen : r.auAddress.length = pcs)
    (hbytes : ∀ b, b ∈ r.auAddress → b < 256) (hdata : r.uData < 4294967296) :
    (loadReport base maxE pcs (saveCurrentReport base maxE pcs r i e) i).uData = r.uData ∧
    (loadReport base maxE pcs (saveCurrentReport base maxE pcs r i e) i).auAddress =
      swapEnds pcs r.auAddress := by
  have hsl : (serializeReport r).length = pcs + 4 := by
    rw [serializeReport_length, hlen]
  have hread : readBlock (saveCurrentReport base maxE pcs r i e)
      (getAddressForReport base maxE pcs i) (pcs + 4) = serializeReport r := by
    conv_lhs => rw [← hsl]
    unfold saveCurrentReport
    rw [readBlock_writeBlock, map_mod_id _ (serializeReport_mem_lt r hbytes)]
  constructor
  · show le4 ((readBlock (saveCurrentReport base maxE pcs r i e)
      (getAddressForReport base maxE pcs i) (pcs + 4)).drop pcs) = r.uData
    rw [hread]
    show le4 ((r.auAddress ++ toLE4 r.uData).drop pcs) = r.uData
    rw [← hlen, List.drop_left, le4_toLE4 _ hdata]
  · show swapEnds pcs ((readBlock (saveCurrentReport base maxE pcs r i e)
      (getAddressForReport base maxE pcs i) (pcs + 4)).take pcs) = swapEnds pcs r.auAddress
    rw [hread]
    show swapEnds pcs ((r.auAddress ++ toLE4 r.uData).take pcs) = swapEnds pcs r.auAddress
    rw [← hlen, List.take_left]

/-- Witness for C7 at a concrete input. -/
theorem claimC7_witness :
    (loadReport 500 3 2 (saveCurrentReport 500 3 2 ⟨[7, 8], 9⟩ 1 erasedStore) 1).uData = 9 ∧
    (loadReport 500 3 2 (saveCurrentReport 500 3 2 ⟨[7, 8], 9⟩ 1 erasedStore) 1).auAddress =
      swapEnds 2 [7, 8] :=
  claimC7_save_load_roundtrip 500 3 2 1 ⟨[7, 8], 9⟩ erasedStore (by decide) (by decide)
    (by decide) (by decide)

theorem swapEnds_getD (pcs : Nat) (l : List Nat) (hl : l.length = pcs) (t : Nat)
    (ht : t < pcs) :
    (swapEnds pcs l).getD t 0 =
      if pcs - 1 = t then l.getD 0 0
      else if 0 = t then l.getD (pcs - 1) 0
      else l.getD t 0 := by
  unfold swapEnds
  have hlen2 : t < ((l.set 0 (l.getD (pcs - 1) 0)).set (pcs - 1) (l.getD 0 0)).length := by
    simp only [List.length_set, hl]
    omega
  rw [List.getD_eq_getElem _ _ hlen2, List.getElem_set, List.getElem_set]
  by_cases h1 : pcs - 1 = t
  · rw [if_pos h1, if_pos h1]
  · rw [if_neg h1, if_neg h1]
    by_cases h2 : 0 = t
    · rw [if_pos h2, if_pos h2]
    · rw [if_neg h2, if_neg h2]
      exact (List.getD_eq_getElem _ _ (by omega)).symm

theorem swapEnds_length (pcs : Nat) (l : List Nat) : (swapEnds pcs l).length = l.length := by
  simp [swapEnds]

theorem loadReport_raw_getD (base maxE pcs i : Nat) (e : EEPROM) (t : Nat) (ht : t < pcs) :
    ((readBlock e (getAddressForReport base maxE pcs i) (pcs + 4)).take pcs).getD t 0 =
      readByte e (getAddressForReport base maxE pcs i + t) := by
  have hlt : t < ((readBlock e (getAddressForReport base maxE pcs i) (pcs + 4)).take pcs).length := by
    simp only [List.length_take, readBlock_length]
    omega
  rw [List.getD_eq_getElem _ _ hlt, List.getElem_take, readBlock_getElem]

/-- Claim C8: the byte-order fix-up of loadReport swaps exactly the first
and last bytes of the stored location field and touches no other byte:
the loaded location has its first byte equal to the last stored byte,
its last byte equal to the first stored byte, and every byte strictly in
between equal to the stored byte at the same offset. -/
theorem claimC8_fixup_swaps_endpoints (base maxE pcs i : Nat) (e : EEPROM) (hp : 2 ≤ pcs) :
    (loadReport base maxE pcs e i).auAddress.length = pcs ∧
    (loadReport base maxE pcs e i).auAddress.getD 0 0 =
      readByte e (getAddressForReport base maxE pcs i + (pcs - 1)) ∧
    (loadReport base maxE pcs e i).auAddress.getD (pcs - 1) 0 =
      readByte e (getAddressForReport base maxE pcs i + 0) ∧
    (∀ t, 0 < t → t < pcs - 1 →
      (loadReport base maxE pcs e i).auAddress.getD t 0 =
        readByte e (getAddressForReport base maxE pcs i + t)) := by
  have hrawlen :
      ((readBlock e (getAddressForReport base maxE pcs i) (pcs + 4)).take pcs).length = pcs := by
    simp only [List.length_take, readBlock_length]
    omega
  refine ⟨?_, ?_, ?_, ?_⟩
  · show (swapEnds pcs ((readBlock e (getAddressForReport base maxE pcs i)
      (pcs + 4)).take pcs)).length = pcs
    rw [swapEnds_length, hrawlen]
  · show (swapEnds pcs ((readBlock e (getAddressForReport base maxE pcs i)
      (pcs + 4)).take pcs)).getD 0 0 = _
    rw [swapEnds_getD pcs _ hrawlen 0 (by omega), if_neg (by omega), if_pos rfl,
      loadReport_raw_getD base maxE pcs i e (pcs - 1) (by omega)]
  · show (swapEnds pcs ((readBlock e (getAddressForReport base maxE pcs i)
      (pcs + 4)).take pcs)).getD (pcs - 1) 0 = _
    rw [swapEnds_getD pcs _ hrawlen (pcs - 1) (by omega), if_pos rfl,
      loadReport_raw_getD base maxE pcs i e 0 (by omega)]
  · intro t ht1 ht2
    show (swapEnds pcs ((readBlock e (getAddressForReport base maxE pcs i)
      (pcs + 4)).take pcs)).getD t 0 = _
    rw [swapEnds_getD pcs _ hrawlen t (by omega), if_neg (by omega), if_neg (by omega),
      loadReport_raw_getD base maxE pcs i e t (by omega)]

/-- Witness for C8 at a concrete input with a 3-byte location field. -/
theorem claimC8_witness :
    (loadReport 500 3 3 erasedStore 0).auAddress.length = 3 ∧
    (loadReport 500 3 3 erasedStore 0).auAddress.getD 0 0 =
      readByte erasedStore (getAddressForReport 500 3 3 0 + (3 - 1)) ∧
    (loadReport 500 3 3 erasedStore 0).auAddress.getD (3 - 1) 0 =
      readByte erasedStore (getAddressForReport 500 3 3 0 + 0) ∧
    (∀ t, 0 < t → t < 3 - 1 →
      (loadReport 500 3 3 erasedStore 0).auAddress.getD t 0 =
        readByte erasedStore (getAddressForReport 500 3 3 0 + t)) :=
  claimC8_fixup_swaps_endpoints 500 3 3 0 erasedStore (by decide)

theorem loadReport_congr (base maxE pcs i : Nat) (e1 e2 : EEPROM)
    (h : ∀ t, t < pcs + 4 →
      e1 (getAddressForReport base maxE pcs i + t) =
        e2 (getAddressForReport base maxE pcs i + t)) :
    loadReport base maxE pcs e1 i = loadReport base maxE pcs e2 i := by
  unfold loadReport
  rw [readBlock_congr e1 e2 _ _ h]

theorem clearLoop_inv (base maxE pcs : Nat) (e : EEPROM) (s : Nat)
    (hsm : s ≤ maxE)
    (hS : ∀ j j2 t t2, j < s → j2 < s → t < pcs + 4 → t2 < pcs + 4 →
      slotAddr base pcs j + t ≠ recoveredAddr base maxE pcs e j2 + t2)
    (hP : ∀ j j2 t t2, j < s → j2 < s → j ≠ j2 → t < pcs + 4 → t2 < pcs + 4 →
      recoveredAddr base maxE pcs e j + t ≠ recoveredAddr base maxE pcs e j2 + t2) :
    ∀ k, k ≤ s →
      (∀ x, (∀ j t, j < k → t < pcs + 4 →
          x ≠ recoveredAddr base maxE pcs e j + t) →
        ((List.range k).foldl (clearStep base maxE pcs) e) x = e x) ∧
      (∀ j t, j < k → t < pcs + 4 →
        readByte ((List.range k).foldl (clearStep base maxE pcs) e)
          (recoveredAddr base maxE pcs e j + t) = 0) := by
  intro k
  induction k with
  | zero =>
    intro _
    exact ⟨fun x _ => rfl, fun j t hj _ => by omega⟩
  | succ k ih =>
    intro hk
    obtain ⟨ihf, ihz⟩ := ih (by omega)
    have hks : k < s := by omega
    -- the loop body reads report k from untouched slot bytes
    have hslot : loadReport base maxE pcs
        ((List.range k).foldl (clearStep base maxE pcs) e) k = loadReport base maxE pcs e k := by
      apply loadReport_congr
      intro t ht
      apply ihf
      intro j t2 hj ht2
      rw [getAddr_eq_slotAddr base maxE pcs k (by omega)]
      exact hS k j t t2 (by omega) (by omega) ht ht2
    have hstep : (List.range (k + 1)).foldl (clearStep base maxE pcs) e =
        writeBlock ((List.range k).foldl (clearStep base maxE pcs) e)
          (recoveredAddr base maxE pcs e k) (List.replicate (pcs + 4) 0) := by
      rw [List.range_succ, List.foldl_append]
      show writeBlock ((List.range k).foldl (clearStep base maxE pcs) e)
        (leBytes ((loadReport base maxE pcs
          ((List.range k).foldl (clearStep base maxE pcs) e) k).auAddress))
        (List.replicate (pcs + 4) 0) = _
      rw [hslot]
      rfl
    have hinrange : ∀ y, (∀ t2, t2 < pcs + 4 →
        y ≠ recoveredAddr base maxE pcs e k + t2) →
        ¬(recoveredAddr base maxE pcs e k ≤ y ∧
          y < recoveredAddr base maxE pcs e k + (List.replicate (pcs + 4) (0 : Nat)).length) := by
      intro y hy hcon
      rw [List.length_replicate] at hcon
      exact hy (y - recoveredAddr base maxE pcs e k) (by omega) (by omega)
    constructor
    · intro x hx
      rw [hstep, writeBlock_apply,
        if_neg (hinrange x (fun t2 ht2 => hx k t2 (by omega) ht2))]
      exact ihf x (fun j t hj ht => hx j t (by omega) ht)
    · intro j t hj ht
      rw [hstep, readByte_writeBlock]
      rcases Nat.eq_or_lt_of_le (Nat.lt_succ_iff.mp hj) with hje | hjlt
      · -- j = k : freshly zeroed
        rw [hje, if_pos (by rw [List.length_replicate]; omega)]
        rw [List.getD_eq_getElem _ _ (by rw [List.length_replicate]; omega),
          List.getElem_replicate]
      · -- j < k : zeroed earlier, not touched by this write
        rw [if_neg (hinrange _ (fun t2 ht2 =>
          hP j k t t2 (by omega) (by omega) (by omega) ht ht2))]
        exact ihz j t hjlt ht

theorem readByte_saveHeader_base (base : Nat) (h : CCrashMonitorHeader) (e : EEPROM) :
    readByte (saveHeader base h e) base = h.savedReports % 256 := by
  unfold saveHeader
  rw [readByte_writeBlock, if_pos (by simp only [List.length_cons, List.length_nil]; omega)]
  simp only [Nat.sub_self, List.getD_cons_zero]

theorem readByte_saveHeader_next (base : Nat) (h : CCrashMonitorHeader) (e : EEPROM) :
    readByte (saveHeader base h e) (base + 1) = h.uNextReport % 256 := by
  unfold saveHeader
  rw [readByte_writeBlock, if_pos (by simp only [List.length_cons, List.length_nil]; omega)]
  simp only [show base + 1 - base = 1 by omega, List.getD_cons_succ, List.getD_cons_zero]

theorem readByte_saveHeader_other (base x : Nat) (h : CCrashMonitorHeader) (e : EEPROM)
    (hx0 : x ≠ base) (hx1 : x ≠ base + 1) :
    readByte (saveHeader base h e) x = readByte e x := by
  unfold saveHeader
  rw [readByte_writeBlock, if_neg (by simp only [List.length_cons, List.length_nil]; omega)]

/-- Claim C6: clear zeroes, for each recorded report index, sizeof(report)
bytes starting at the address recovered from that report's own location
field reinterpreted as an address — not at the report's slot storage
address, whose bytes are left untouched — then persists a header with
savedReports = 0 and nextReport = 0, after which isFull is false and
dump with onlyIfPresent = true produces no report lines.  The zeroing
conclusions are stated under non-interference hypotheses: the zeroing
targets avoid the two header bytes, the slot storage region, and one
another. -/
theorem claimC6_clear_semantics (base maxE pcs : Nat) (e : EEPROM) (hm : 1 ≤ maxE)
    (hH : ∀ j, j < (loadHeader base maxE e).savedReports → ∀ t, t < pcs + 4 →
      recoveredAddr base maxE pcs e j + t ≠ base ∧
      recoveredAddr base maxE pcs e j + t ≠ base + 1)
    (hS : ∀ j, j < (loadHeader base maxE e).savedReports →
      ∀ j2, j2 < (loadHeader base maxE e).savedReports →
      ∀ t, t < pcs + 4 → ∀ t2, t2 < pcs + 4 →
      slotAddr base pcs j + t ≠ recoveredAddr base maxE pcs e j2 + t2)
    (hP : ∀ j, j < (loadHeader base maxE e).savedReports →
      ∀ j2, j2 < (loadHeader base maxE e).savedReports → j ≠ j2 →
      ∀ t, t < pcs + 4 → ∀ t2, t2 < pcs + 4 →
      recoveredAddr base maxE pcs e j + t ≠ recoveredAddr base maxE pcs e j2 + t2) :
    loadHeader base maxE (clear base maxE pcs e) = ⟨0, 0⟩ ∧
    isFull base maxE (clear base maxE pcs e) = false ∧
    dump base maxE pcs (clear base maxE pcs e) true = [] ∧
    (∀ j, j < (loadHeader base maxE e).savedReports → ∀ t, t < pcs + 4 →
      readByte (clear base maxE pcs e) (recoveredAddr base maxE pcs e j + t) = 0) ∧
    (∀ j, j < (loadHeader base maxE e).savedReports → ∀ t, t < pcs + 4 →
      readByte (clear base maxE pcs e) (slotAddr base pcs j + t) =
        readByte e (slotAddr base pcs j + t)) := by
  have hsm : (loadHeader base maxE e).savedReports ≤ maxE := loadHeader_saved_le base maxE e
  have hloop := clearLoop_inv base maxE pcs e (loadHeader base maxE e).savedReports hsm
    (fun j j2 t t2 hj hj2 ht ht2 => hS j hj j2 hj2 t ht t2 ht2)
    (fun j j2 t t2 hj hj2 hne ht ht2 => hP j hj j2 hj2 hne t ht t2 ht2)
    (loadHeader base maxE e).savedReports (Nat.le_refl _)
  have hclear : clear base maxE pcs e = saveHeader base ⟨0, 0⟩
      (if (loadHeader base maxE e).savedReports ≠ 0 then
        (List.range (loadHeader base maxE e).savedReports).foldl (clearStep base maxE pcs) e
      else e) := rfl
  have h0 : readByte (clear base maxE pcs e) base = 0 := by
    rw [hclear, readByte_saveHeader_base]
    rfl
  have h1 : readByte (clear base maxE pcs e) (base + 1) = 0 := by
    rw [hclear, readByte_saveHeader_next]
    rfl
  have ha : loadHeader base maxE (clear base maxE pcs e) = ⟨0, 0⟩ := by
    unfold loadHeader
    rw [h0, h1, clampS_small maxE 0 (by omega) (by omega), if_neg (by omega)]
  refine ⟨ha, ?_, ?_, ?_, ?_⟩
  · unfold isFull
    rw [ha]
    show decide ((0 : Nat) ≥ maxE) = false
    exact decide_eq_false (by omega)
  · unfold dump
    rw [ha]
    simp
  · intro j hj t ht
    have hs0 : (loadHeader base maxE e).savedReports ≠ 0 := by omega
    rw [hclear, if_pos hs0,
      readByte_saveHeader_other base _ _ _ (hH j hj t ht).1 (hH j hj t ht).2]
    exact hloop.2 j t hj ht
  · intro j hj t ht
    have hs0 : (loadHeader base maxE e).savedReports ≠ 0 := by omega
    rw [hclear, if_pos hs0,
      readByte_saveHeader_other base _ _ _
        (by have := slotAddr_ge base pcs j t; omega)
        (by have := slotAddr_ge base pcs j t; omega)]
    unfold readByte
    rw [hloop.1 (slotAddr base pcs j + t)
      (fun j2 t2 hj2 ht2 => hS j hj j2 hj2 t ht t2 ht2)]

/-- Witness for C6 at a concrete input: one stored report whose recovered
location (address 100) lies outside the header bytes and the slot region. -/
theorem claimC6_witness :
    loadHeader 10 2 (clear 10 2 2
      (fun a => if a = 10 then 1 else if a = 13 then 100 else 0 : EEPROM)) = ⟨0, 0⟩ ∧
    isFull 10 2 (clear 10 2 2
      (fun a => if a = 10 then 1 else if a = 13 then 100 else 0 : EEPROM)) = false ∧
    dump 10 2 2 (clear 10 2 2
      (fun a => if a = 10 then 1 else if a = 13 then 100 else 0 : EEPROM)) true = [] ∧
    (∀ j, j < (loadHeader 10 2
        (fun a => if a = 10 then 1 else if a = 13 then 100 else 0 : EEPROM)).savedReports →
      ∀ t, t < 2 + 4 →
      readByte (clear 10 2 2
          (fun a => if a = 10 then 1 else if a = 13 then 100 else 0 : EEPROM))
        (recoveredAddr 10 2 2
          (fun a => if a = 10 then 1 else if a = 13 then 100 else 0 : EEPROM) j + t) = 0) ∧
    (∀ j, j < (loadHeader 10 2
        (fun a => if a = 10 then 1 else if a = 13 then 100 else 0 : EEPROM)).savedReports →
      ∀ t, t < 2 + 4 →
      readByte (clear 10 2 2
          (fun a => if a = 10 then 1 else if a = 13 then 100 else 0 : EEPROM))
        (slotAddr 10 2 j + t) =
        readByte (fun a => if a = 10 then 1 else if a = 13 then 100 else 0 : EEPROM)
          (slotAddr 10 2 j + t)) :=
  claimC6_clear_semantics 10 2 2
    (fun a => if a = 10 then 1 else if a = 13 then 100 else 0 : EEPROM)
    (by decide) (by decide) (by decide) (by decide)
